import Mathlib

/-!
# A verification development for the nxs-go-conf decode/defaults/validation engine

This file gives a shallow embedding, in Lean 4, of the configuration engine of
`conf.go`: the tag parsing (`tagPartsMakeMap`, `tagKeyCheck`, `tagValGet`,
`tagValIndexGet`, `fieldNameNormalize`), the string-conversion layer
(`convFromString`, `decodeFromString` with its `ENV:(.*)` indirection), and the
post-decode pipeline (`setDefaults`, `checkUsedRequredOpts`,
`checkUnknownOpts`) run by `confRead` after the external YAML/JSON + map
decoder produced the typed value, its used-key metadata and its unused-key
metadata.

Go strings are modelled as Lean `String`s (with the core list-of-characters
operations made explicit), Go's `reflect.Value` view of the target structure is
modelled by the mutual inductive family `Val`/`Fields`/`Elems`/`Entries`, and
fallible Go functions returning `error` are modelled with `Except String`.
The external decode stage itself (the YAML/JSON parser and the generic map
decoder) is out of scope; the pipeline is modelled from the point where the
decoded value, the used-path list (`md.Keys`) and the unused-key list
(`md.Unused`) exist, exactly as `confRead` does after `decoder.Decode`.
-/

namespace NxsConf

/-! ## Go string primitives used by conf.go -/

/-- Model of Go `strings.Split(s, sep)` for a one-character separator, on the
character list of the string.  `strings.Split("", sep)` is `[""]`, and the
separator count determines the number of parts. -/
def splitOnChar (sep : Char) : List Char → List (List Char)
  | [] => [[]]
  | c :: cs =>
    if c = sep then [] :: splitOnChar sep cs
    else
      match splitOnChar sep cs with
      | [] => [[c]]
      | t :: ts => (c :: t) :: ts

/-- The cutset `" \t"` of the `strings.Trim` call in `tagPartsMakeMap`. -/
def isSpaceTab (c : Char) : Bool := c == ' ' || c == '\t'

/-- Model of Go `strings.Trim(s, " \t")` on character lists: drop leading and
trailing spaces and tabs. -/
def trimST (cs : List Char) : List Char :=
  ((cs.dropWhile isSpaceTab).reverse.dropWhile isSpaceTab).reverse

/-- `strings.Trim(s, " \t")` on strings. -/
def trimSpaceTab (s : String) : String := String.mk (trimST s.toList)

/-- Assignment `m[k] = v` into a Go `map[string]string`, modelled on an
association list without duplicate keys: replace the value if the key is
present, append otherwise. -/
def goMapInsert (m : List (String × String)) (k v : String) : List (String × String) :=
  match m with
  | [] => [(k, v)]
  | (k0, v0) :: rest => if k0 = k then (k0, v) :: rest else (k0, v0) :: goMapInsert rest k v

/-- Lookup `v, ok := m[k]` in a Go `map[string]string` modelled as above. -/
def goMapLookup (m : List (String × String)) (k : String) : Option String :=
  match m with
  | [] => none
  | (k0, v0) :: rest => if k0 = k then some v0 else goMapLookup rest k

/-! ## Tag handling (conf.go `tagPartsMakeMap`, `tagKeyCheck`, `tagValGet`,
`tagValIndexGet`, `fieldNameNormalize`) -/

/-- The tag names of conf.go. -/
def tagConfRequiredName : String := "required"

def tagConfDefaultName : String := "default"

/-- One iteration of the loop of `tagPartsMakeMap`: split the comma-separated
token `e` on `=`; if that yields more than one part the trimmed first part maps
to the second part (`s[1]`, later parts are dropped), otherwise the trimmed
token maps to the empty string. -/
def tagPartsAdd (tm : List (String × String)) (e : List Char) : List (String × String) :=
  match splitOnChar '=' e with
  | [] => tm
  | [k] => goMapInsert tm (trimSpaceTab (String.mk k)) ""
  | k :: v :: _ => goMapInsert tm (trimSpaceTab (String.mk k)) (String.mk v)

/-- conf.go `tagPartsMakeMap`: split the tag on commas and build the key/value
map token by token. -/
def tagPartsMakeMap (tag : String) : List (String × String) :=
  (splitOnChar ',' tag.toList).foldl tagPartsAdd []

/-- conf.go `tagKeyCheck`: whether the tag's part map contains `key`. -/
def tagKeyCheck (tag key : String) : Bool :=
  (goMapLookup (tagPartsMakeMap tag) key).isSome

/-- conf.go `tagValGet`: the value stored under `key` in the tag's part map,
with the Go zero value `""` and `ok = false` when the key is absent. -/
def tagValGet (tag key : String) : String × Bool :=
  match goMapLookup (tagPartsMakeMap tag) key with
  | some v => (v, true)
  | none => ("", false)

/-- conf.go `tagValIndexGet`: the `i`-th comma-separated part of the tag (raw,
not split on `=`), or `""` when the index is out of range. -/
def tagValIndexGet (tag : String) (i : Nat) : String :=
  let p := (splitOnChar ',' tag.toList).map String.mk
  if i ≥ p.length then "" else p.getD i ""

/-! ## strconv models

`convFromString` delegates to Go's `strconv` parsers with base 0 and the
destination type's bit width.  The parsers below model `strconv.ParseBool`,
`strconv.ParseInt(s, 0, bits)` and `strconv.ParseUint(s, 0, bits)`, including
base auto-detection (`0x`/`0X`, `0o`/`0O`, `0b`/`0B`, leading-`0` octal),
digit-separating underscores and range checking.  Values are kept in `Int`/
`Nat`; on a range error Go returns the clamped value together with the error,
which collapses to just the error in the `Except` model since every caller in
conf.go discards the value when the error is non-nil. -/

inductive ParseErr where
  | syntaxE
  | rangeE
deriving Repr, DecidableEq

def parseErrMsg (fn str : String) : ParseErr → String
  | .syntaxE => "strconv." ++ fn ++ ": parsing \"" ++ str ++ "\": invalid syntax"
  | .rangeE => "strconv." ++ fn ++ ": parsing \"" ++ str ++ "\": value out of range"

/-- Model of `strconv.ParseBool`: the fixed sets of accepted literals. -/
def parseBool (str : String) : Except String Bool :=
  if str = "1" ∨ str = "t" ∨ str = "T" ∨ str = "true" ∨ str = "TRUE" ∨ str = "True" then
    .ok true
  else if str = "0" ∨ str = "f" ∨ str = "F" ∨ str = "false" ∨ str = "FALSE" ∨ str = "False" then
    .ok false
  else
    .error (parseErrMsg "ParseBool" str .syntaxE)

/-- Go `lower(c)`: map an ASCII upper-case letter to lower case. -/
def lowerChar (c : Char) : Char :=
  if 'A' ≤ c ∧ c ≤ 'Z' then Char.ofNat (c.toNat + 32) else c

/-- The value of a digit character in bases up to 36, as in strconv. -/
def digitVal (c : Char) : Option Nat :=
  if '0' ≤ c ∧ c ≤ '9' then some (c.toNat - '0'.toNat)
  else if 'a' ≤ c ∧ c ≤ 'z' then some (c.toNat - 'a'.toNat + 10)
  else if 'A' ≤ c ∧ c ≤ 'Z' then some (c.toNat - 'A'.toNat + 10)
  else none

/-- Base auto-detection of `strconv.ParseUint` with `base = 0`: a `0b`/`0o`/
`0x` prefix (requiring at least one further character) selects base 2/8/16 and
is stripped; otherwise a leading `0` selects base 8 and is stripped; otherwise
base 10. -/
def baseDetect (cs : List Char) : Nat × List Char :=
  match cs with
  | '0' :: c2 :: rest =>
    if lowerChar c2 = 'b' ∧ rest ≠ [] then (2, rest)
    else if lowerChar c2 = 'o' ∧ rest ≠ [] then (8, rest)
    else if lowerChar c2 = 'x' ∧ rest ≠ [] then (16, rest)
    else (8, c2 :: rest)
  | _ => (10, cs)

/-- The digit-accumulation loop of `strconv.ParseUint`: underscores are
skipped (recording that one was seen, validated afterwards), an invalid digit
is a syntax error, and exceeding `maxN` is a range error. -/
def parseDigits (base maxN : Nat) : List Char → Bool → Nat → Except ParseErr (Nat × Bool)
  | [], sawU, acc => .ok (acc, sawU)
  | c :: cs, sawU, acc =>
    if c = '_' then parseDigits base maxN cs true acc
    else
      match digitVal c with
      | none => .error .syntaxE
      | some d =>
        if d ≥ base then .error .syntaxE
        else if acc * base + d > maxN then .error .rangeE
        else parseDigits base maxN cs sawU (acc * base + d)

/-- The scanning loop of strconv's `underscoreOK`: underscores may appear only
immediately after a base prefix or a digit, and only immediately before a
digit. -/
def underscoreOKLoop (hex : Bool) : List Char → Char → Bool
  | [], saw => saw ≠ '_'
  | c :: cs, saw =>
    if ('0' ≤ c ∧ c ≤ '9') ∨ (hex ∧ 'a' ≤ lowerChar c ∧ lowerChar c ≤ 'f') then
      underscoreOKLoop hex cs '0'
    else if c = '_' then
      if saw ≠ '0' then false else underscoreOKLoop hex cs '_'
    else if saw = '_' then false
    else underscoreOKLoop hex cs '!'

/-- strconv `underscoreOK`: sanity check of underscore placement, applied to
the original string (an optional sign and a base prefix are allowed). -/
def underscoreOK (cs0 : List Char) : Bool :=
  let cs :=
    match cs0 with
    | c :: rest => if c = '-' ∨ c = '+' then rest else cs0
    | [] => cs0
  match cs with
  | '0' :: c2 :: rest =>
    if lowerChar c2 = 'b' ∨ lowerChar c2 = 'o' ∨ lowerChar c2 = 'x' then
      underscoreOKLoop (lowerChar c2 = 'x') rest '0'
    else underscoreOKLoop false cs '^'
  | _ => underscoreOKLoop false cs '^'

/-- Core of `strconv.ParseUint(s, 0, bits)` on the character list (no sign
permitted): detect the base, run the digit loop against the unsigned maximum
`2 ^ bits - 1`, and validate underscores against the original string. -/
def parseUintCore (cs0 : List Char) (bits : Nat) : Except ParseErr Nat :=
  match cs0 with
  | [] => .error .syntaxE
  | _ :: _ =>
    let bd := baseDetect cs0
    match parseDigits bd.1 (2 ^ bits - 1) bd.2 false 0 with
    | .error e => .error e
    | .ok (n, sawU) =>
      if sawU ∧ ¬ underscoreOK cs0 then .error .syntaxE else .ok n

/-- Model of `strconv.ParseUint(str, 0, bits)`. -/
def parseUintGo (str : String) (bits : Nat) : Except String Nat :=
  match parseUintCore str.toList bits with
  | .error e => .error (parseErrMsg "ParseUint" str e)
  | .ok n => .ok n

/-- Model of `strconv.ParseInt(str, 0, bits)`: strip an optional sign, parse
the rest as an unsigned number at the same bit size, then range-check against
the signed bounds `-2 ^ (bits - 1) ..= 2 ^ (bits - 1) - 1`. -/
def parseIntGo (str : String) (bits : Nat) : Except String Int :=
  match str.toList with
  | [] => .error (parseErrMsg "ParseInt" str .syntaxE)
  | c :: rest =>
    let sd : Bool × List Char :=
      if c = '+' then (false, rest)
      else if c = '-' then (true, rest)
      else (false, c :: rest)
    match parseUintCore sd.2 bits with
    | .error e => .error (parseErrMsg "ParseInt" str e)
    | .ok un =>
      if ¬ sd.1 ∧ un ≥ 2 ^ (bits - 1) then .error (parseErrMsg "ParseInt" str .rangeE)
      else if sd.1 ∧ un > 2 ^ (bits - 1) then .error (parseErrMsg "ParseInt" str .rangeE)
      else .ok (if sd.1 then -(un : Int) else (un : Int))

/-- Model of `strconv.ParseFloat(str, bits)` restricted to finite decimal
literals: optional sign, decimal digits with an optional fraction part, and an
optional decimal exponent.  The special forms (`inf`/`nan`, hex mantissas,
digit-separating underscores) and the IEEE-754 rounding to the 32- or 64-bit
format are not modelled: the parsed value is kept as an exact rational.  No
claim in this development depends on a float payload. -/
def parseFloatDigits : List Char → Option (Nat × Nat)
  | [] => some (0, 0)
  | c :: cs =>
    match digitVal c with
    | some d =>
      if d ≤ 9 ∧ '0' ≤ c ∧ c ≤ '9' then
        match parseFloatDigits cs with
        | some (n, len) => some (d * 10 ^ len + n, len + 1)
        | none => none
      else none
    | none => none

def parseFloatGo (str : String) (bits : Nat) : Except String Rat :=
  let _ := bits
  let cs0 := str.toList
  let sd : Bool × List Char :=
    match cs0 with
    | c :: rest =>
      if c = '+' then (false, rest)
      else if c = '-' then (true, rest)
      else (false, cs0)
    | [] => (false, cs0)
  let mant := sd.2.takeWhile (fun c => c ≠ 'e' ∧ c ≠ 'E')
  let expPart := sd.2.drop mant.length
  let intPart := mant.takeWhile (fun c => c ≠ '.')
  let fracPart :=
    match mant.drop intPart.length with
    | '.' :: fr => some fr
    | [] => some []
    | _ => none
  match fracPart with
  | none => .error (parseErrMsg "ParseFloat" str .syntaxE)
  | some fr =>
    if intPart = [] ∧ fr = [] then .error (parseErrMsg "ParseFloat" str .syntaxE)
    else
      match parseFloatDigits intPart, parseFloatDigits fr with
      | some (ip, _), some (fp, flen) =>
        let mantVal : Rat := (ip : Rat) + (fp : Rat) / ((10 : Rat) ^ flen)
        let base : Rat := if sd.1 then -mantVal else mantVal
        match expPart with
        | [] => .ok base
        | _ :: ecs =>
          let esd : Bool × List Char :=
            match ecs with
            | e :: erest =>
              if e = '+' then (false, erest)
              else if e = '-' then (true, erest)
              else (false, ecs)
            | [] => (false, ecs)
          match esd.2 with
          | [] => .error (parseErrMsg "ParseFloat" str .syntaxE)
          | _ =>
            match parseFloatDigits esd.2 with
            | some (ev, _) =>
              .ok (if esd.1 then base / ((10 : Rat) ^ ev) else base * ((10 : Rat) ^ ev))
            | none => .error (parseErrMsg "ParseFloat" str .syntaxE)
      | _, _ => .error (parseErrMsg "ParseFloat" str .syntaxE)

example : parseBool "True" = .ok true := rfl
example : parseIntGo "18" 64 = .ok 18 := rfl
example : parseIntGo "0x10" 64 = .ok 16 := rfl
example : parseIntGo "010" 64 = .ok 8 := rfl
example : parseIntGo "-128" 8 = .ok (-128) := rfl
example : (parseIntGo "128" 8).isOk = false := by decide
example : (parseIntGo "abc" 64).isOk = false := by decide
example : parseIntGo "1_000" 64 = .ok 1000 := rfl
example : (parseIntGo "1__0" 64).isOk = false := by decide
example : parseUintGo "18" 64 = .ok 18 := rfl
example : (parseUintGo "-1" 64).isOk = false := by decide
example : tagValGet "default=18" "default" = ("18", true) := by decide
example : tagValGet "required,default=Test String" "default" = ("Test String", true) := by decide
example : tagValGet "default=a,b" "default" = ("a", true) := by decide
example : tagValGet "default=a=b" "default" = ("a", true) := by decide
example : tagKeyCheck "required=false" "required" = true := by decide
example : tagKeyCheck " required \t,x" "required" = true := by decide
example : tagKeyCheck "requiredx" "required" = false := by decide

/-! ## Scalar kinds and `convFromString` -/

/-- The reflect kinds that matter to `convFromString` and to the leaf branch of
`setDefaults`: booleans, signed and unsigned integers with their bit width
(`t.Bits()`), 32/64-bit floats, strings, and `tOther` for every remaining kind
(complex numbers, channels, nested pointers, ...), which both switches send to
their `default` branch. -/
inductive Ty where
  | tBool
  | tInt (bits : Nat)
  | tUint (bits : Nat)
  | tFloat (bits : Nat)
  | tString
  | tOther
deriving Repr, DecidableEq

/-- The dynamically-typed result of `convFromString` (Go returns `any`). -/
inductive GoVal where
  | gBool (b : Bool)
  | gInt (x : Int)
  | gUint (x : Nat)
  | gFloat (x : Rat)
  | gStr (s : String)
deriving Repr, DecidableEq

/-- conf.go `convFromString`: convert a string to the destination kind with
the strconv parser for that kind; the switch has no case for strings or any
other remaining kind, so those fall through to `return str, nil`. -/
def convFromString (str : String) (t : Ty) : Except String GoVal :=
  match t with
  | .tBool => (parseBool str).map .gBool
  | .tInt bits => (parseIntGo str bits).map .gInt
  | .tUint bits => (parseUintGo str bits).map .gUint
  | .tFloat bits => (parseFloatGo str bits).map .gFloat
  | .tString => .ok (.gStr str)
  | .tOther => .ok (.gStr str)

/-! ## The `ENV:(.*)` regular expression and `decodeFromString` -/

/-- Whether a character list starts with the literal `ENV:`. -/
def hasPrefixENV : List Char → Bool
  | c1 :: c2 :: c3 :: c4 :: _ => c1 == 'E' && c2 == 'N' && c3 == 'V' && c4 == ':'
  | _ => false

/-- Model of `regexp.MustCompile("ENV:(.*)").FindStringSubmatch`: the regular
expression is unanchored, so the match starts at the leftmost occurrence of the
literal `ENV:` anywhere in the string, and the capture group `(.*)` greedily
takes the following characters up to (not including) the next newline, since
`.` does not match `\n`.  `none` models a nil submatch slice. -/
def envCapture : List Char → Option (List Char)
  | [] => none
  | c :: cs =>
    if hasPrefixENV (c :: cs) then some ((cs.drop 3).takeWhile (fun ch => ch ≠ '\n'))
    else envCapture cs

/-- conf.go `decodeFromString`, the mapstructure decode hook.  The process
environment is modelled as a total function `env`; as with Go's `os.Getenv`,
an unset variable is indistinguishable from one set to `""`.  Source values of
non-string kind pass through unchanged.  The `v.(string)` type assertion is
total in Go because `f` has string kind; the unreachable non-string shapes of
`v` are mapped to `v` itself. -/
def decodeFromString (env : String → String) (f t : Ty) (v : GoVal) : Except String GoVal :=
  if f ≠ Ty.tString then .ok v
  else
    match v with
    | .gStr vs =>
      match envCapture vs.toList with
      | some nameCs =>
        let name := String.mk nameCs
        let str := env name
        if str = "" then .error ("empty ENV variable '" ++ name ++ "'")
        else convFromString str t
      | none => convFromString vs t
    | w => .ok w

/-! ## The decoded target value

`Val` models the `reflect.Value` view of the target structure that
`setDefaults` and `checkUsedRequredOpts` walk: scalar leaves with their kind
and payload, structs with their ordered fields (each carrying the Go field
name and the raw `conf` / `conf_extraopts` tag values), slices/arrays, maps
with string keys, and pointers (`vPtrNil` for a nil pointer).  `Fields`,
`Elems` and `Entries` are the spines of the three container kinds, kept in the
mutual family so that every traversal below is structurally recursive. -/

/-- The tag data of one struct field: the Go field name `tf.Name`, the value
of its `conf` tag and the value of its `conf_extraopts` tag. -/
structure FieldInfo where
  fname : String
  confTag : String
  extraTag : String
deriving Repr, DecidableEq

mutual
inductive Val where
  | vBool (b : Bool)
  | vInt (bits : Nat) (x : Int)
  | vUint (bits : Nat) (x : Nat)
  | vFloat (bits : Nat) (x : Rat)
  | vString (s : String)
  | vOther
  | vStruct (fields : Fields)
  | vSlice (elems : Elems)
  | vMap (entries : Entries)
  | vPtrNil
  | vPtr (inner : Val)

inductive Fields where
  | nil
  | cons (tf : FieldInfo) (vf : Val) (rest : Fields)

inductive Elems where
  | nil
  | cons (vf : Val) (rest : Elems)

inductive Entries where
  | nil
  | cons (k : String) (vf : Val) (rest : Entries)
end

/-- The `reflect` kind/bit-width view of a leaf value, as consulted by the
two switches of the leaf branch of `setDefaults` (`val.Type().Kind()` and
`t.Bits()`).  Containers and pointers are `tOther`; the function is only
consulted after the container kinds were dispatched, where Go's switches land
in their `default` case for such kinds. -/
def leafTy : Val → Ty
  | .vBool _ => .tBool
  | .vInt bits _ => .tInt bits
  | .vUint bits _ => .tUint bits
  | .vFloat bits _ => .tFloat bits
  | .vString _ => .tString
  | _ => .tOther

/-- conf.go `defaultValue`: the default string carried down from the parent
struct field's tag, with `isSet` telling whether the tag declared one. -/
structure DefaultVal where
  value : String
  isSet : Bool
deriving Repr, DecidableEq

/-- conf.go `fieldNameNormalize`: the first comma-separated part of the `conf`
tag if non-empty, the Go field name otherwise. -/
def fieldNameNormalize (tf : FieldInfo) : String :=
  let str := tagValIndexGet tf.confTag 0
  if str ≠ "" then str else tf.fname

/-- conf.go `optIsUsed`: linear scan of the used-path list `md.Keys`. -/
def optIsUsed (opt : String) : List String → Bool
  | [] => false
  | v :: rest => if v = opt then true else optIsUsed opt rest

/-- The leaf branch of `setDefaults` (the `default:` case of the kind switch):
if a default is declared and the element's path is not among the used keys,
convert the default string at the leaf's kind and assign it through the
matching `Set…` call; kinds outside the five scalar groups make the inner
switch fall through to the internal error naming the path.  Otherwise the
value is left untouched.  (The `val.CanSet()` guard is not modelled: every
value the pipeline reaches is addressable, the struct/map branches arranging
that explicitly.) -/
def leafDefault (v : Val) (parentName : String) (dv : DefaultVal) (keys : List String) :
    Except String Val :=
  if dv.isSet = true ∧ optIsUsed parentName keys = false then
    match convFromString dv.value (leafTy v) with
    | .error e => .error e
    | .ok d =>
      match v, d with
      | .vBool _, .gBool b => .ok (.vBool b)
      | .vInt bits _, .gInt x => .ok (.vInt bits x)
      | .vUint bits _, .gUint x => .ok (.vUint bits x)
      | .vFloat bits _, .gFloat x => .ok (.vFloat bits x)
      | .vString _, .gStr s => .ok (.vString s)
      | _, _ =>
        .error ("internal error, default value not available for this field type `"
          ++ parentName ++ "`")
  else .ok v

mutual
/-- conf.go `setDefaults`: a nil pointer returns immediately; a non-nil
pointer is dereferenced and its pointee processed; structs, slices and maps
recurse into their members with the element path built inline; every other
kind is a leaf handled by `leafDefault`.  The used-key list `md.Keys` is read
(`cnf.optIsUsed(parentName, cnf.md.Keys)` inside the leaf branch) and never
written. -/
def setDefaults (val : Val) (parentName : String) (dv : DefaultVal) (keys : List String) :
    Except String Val :=
  match val with
  | .vPtrNil => .ok .vPtrNil
  | .vPtr inner => (setDefaultsBody inner parentName dv keys).map .vPtr
  | .vStruct fields => (setDefaultsFields fields parentName keys).map .vStruct
  | .vSlice elems => (setDefaultsElems elems parentName 0 keys).map .vSlice
  | .vMap entries => (setDefaultsEntries entries parentName keys).map .vMap
  | v => leafDefault v parentName dv keys

/-- The kind switch of `setDefaults` applied to a dereferenced pointee: a
pointee of pointer kind is not dereferenced again, the switch sends it to the
`default:` leaf branch. -/
def setDefaultsBody (val : Val) (parentName : String) (dv : DefaultVal) (keys : List String) :
    Except String Val :=
  match val with
  | .vStruct fields => (setDefaultsFields fields parentName keys).map .vStruct
  | .vSlice elems => (setDefaultsElems elems parentName 0 keys).map .vSlice
  | .vMap entries => (setDefaultsEntries entries parentName keys).map .vMap
  | v => leafDefault v parentName dv keys

/-- The `reflect.Struct` loop of `setDefaults`: for each field, build the
element path, read `default` from the field's `conf_extraopts` tag with
`tagValGet`, and recurse carrying that default. -/
def setDefaultsFields (fields : Fields) (parentName : String) (keys : List String) :
    Except String Fields :=
  match fields with
  | .nil => .ok .nil
  | .cons tf vf rest =>
    let elName :=
      if parentName ≠ "" then parentName ++ "." ++ fieldNameNormalize tf
      else fieldNameNormalize tf
    let vs := tagValGet tf.extraTag tagConfDefaultName
    match setDefaults vf elName ⟨vs.1, vs.2⟩ keys with
    | .error e => .error e
    | .ok w => (setDefaultsFields rest parentName keys).map (.cons tf w)

/-- The `reflect.Slice`/`reflect.Array` loop of `setDefaults`: element paths
are `fmt.Sprintf("%s[%d]", parentName, i)` and no default is carried. -/
def setDefaultsElems (elems : Elems) (parentName : String) (i : Nat) (keys : List String) :
    Except String Elems :=
  match elems with
  | .nil => .ok .nil
  | .cons vf rest =>
    let elName := parentName ++ "[" ++ toString i ++ "]"
    match setDefaults vf elName ⟨"", false⟩ keys with
    | .error e => .error e
    | .ok w => (setDefaultsElems rest parentName (i + 1) keys).map (.cons w)

/-- The `reflect.Map` loop of `setDefaults`: entry paths are
`fmt.Sprintf("%s[%s]", parentName, k)`, no default is carried, and each entry
value is copied out, processed and stored back with `SetMapIndex`. -/
def setDefaultsEntries (entries : Entries) (parentName : String) (keys : List String) :
    Except String Entries :=
  match entries with
  | .nil => .ok .nil
  | .cons k vf rest =>
    let elName := parentName ++ "[" ++ k ++ "]"
    match setDefaults vf elName ⟨"", false⟩ keys with
    | .error e => .error e
    | .ok w => (setDefaultsEntries rest parentName keys).map (.cons k w)
end

mutual
/-- conf.go `checkUsedRequredOpts`: same pointer handling and traversal shape
as `setDefaults`; the only check sits in the struct loop. -/
def checkUsedRequredOpts (val : Val) (parentName : String) (keys : List String) :
    Except String Unit :=
  match val with
  | .vPtrNil => .ok ()
  | .vPtr inner => checkRequiredBody inner parentName keys
  | .vStruct fields => checkRequiredFields fields parentName keys
  | .vSlice elems => checkRequiredElems elems parentName 0 keys
  | .vMap entries => checkRequiredEntries entries parentName keys
  | _ => .ok ()

/-- The kind switch of `checkUsedRequredOpts` on a dereferenced pointee; the
switch has no `default` case, so leaves (and nested pointers) succeed. -/
def checkRequiredBody (val : Val) (parentName : String) (keys : List String) :
    Except String Unit :=
  match val with
  | .vStruct fields => checkRequiredFields fields parentName keys
  | .vSlice elems => checkRequiredElems elems parentName 0 keys
  | .vMap entries => checkRequiredEntries entries parentName keys
  | _ => .ok ()

/-- The `reflect.Struct` loop of `checkUsedRequredOpts`: for each field in
declaration order, build the element path; if the field's `conf_extraopts`
tag contains the `required` key and the path is not among the used keys,
fail naming the path; otherwise recurse into the field and continue. -/
def checkRequiredFields (fields : Fields) (parentName : String) (keys : List String) :
    Except String Unit :=
  match fields with
  | .nil => .ok ()
  | .cons tf vf rest =>
    let elName :=
      if parentName ≠ "" then parentName ++ "." ++ fieldNameNormalize tf
      else fieldNameNormalize tf
    if tagKeyCheck tf.extraTag tagConfRequiredName = true ∧ optIsUsed elName keys = false then
      .error ("required option '" ++ elName ++ "' is not specified")
    else
      match checkUsedRequredOpts vf elName keys with
      | .error e => .error e
      | .ok _ => checkRequiredFields rest parentName keys

/-- The `reflect.Slice`/`reflect.Array` loop of `checkUsedRequredOpts`. -/
def checkRequiredElems (elems : Elems) (parentName : String) (i : Nat) (keys : List String) :
    Except String Unit :=
  match elems with
  | .nil => .ok ()
  | .cons vf rest =>
    let elName := parentName ++ "[" ++ toString i ++ "]"
    match checkUsedRequredOpts vf elName keys with
    | .error e => .error e
    | .ok _ => checkRequiredElems rest parentName (i + 1) keys

/-- The `reflect.Map` loop of `checkUsedRequredOpts`. -/
def checkRequiredEntries (entries : Entries) (parentName : String) (keys : List String) :
    Except String Unit :=
  match entries with
  | .nil => .ok ()
  | .cons k vf rest =>
    let elName := parentName ++ "[" ++ k ++ "]"
    match checkUsedRequredOpts vf elName keys with
    | .error e => .error e
    | .ok _ => checkRequiredEntries rest parentName keys
end

/-- conf.go `checkUnknownOpts`: with strict mode on and a non-empty unused-key
list `md.Unused`, fail naming its first element. -/
def checkUnknownOpts (unknownDeny : Bool) (unused : List String) : Except String Unit :=
  if unknownDeny = true ∧ unused.length > 0 then
    .error ("unknown option '" ++ unused.headD "" ++ "'")
  else .ok ()

/-- The tail of conf.go `confRead` after `decoder.Decode` succeeded: apply
defaults to the decoded value, then check required options, then check unknown
options, in that order, each stage short-circuiting on its first error.
`keys` is the decoder metadata `md.Keys` (the used paths) and `unused` is
`md.Unused`; the functional result is the final target value that Go leaves in
`out`. -/
def sessionAfterDecode (v : Val) (keys unused : List String) (unknownDeny : Bool) :
    Except String Val :=
  match setDefaults v "" ⟨"", false⟩ keys with
  | .error e => .error e
  | .ok v' =>
    match checkUsedRequredOpts v' "" keys with
    | .error e => .error e
    | .ok _ =>
      match checkUnknownOpts unknownDeny unused with
      | .error e => .error e
      | .ok _ => .ok v'

example :
    setDefaults (.vStruct (.cons ⟨"IntTest", "int_test", "default=18"⟩ (.vInt 64 0) .nil))
      "" ⟨"", false⟩ []
      = .ok (.vStruct (.cons ⟨"IntTest", "int_test", "default=18"⟩ (.vInt 64 18) .nil)) := rfl

example :
    setDefaults (.vStruct (.cons ⟨"IntTest", "int_test", "default=18"⟩ (.vInt 64 7) .nil))
      "" ⟨"", false⟩ ["int_test"]
      = .ok (.vStruct (.cons ⟨"IntTest", "int_test", "default=18"⟩ (.vInt 64 7) .nil)) := rfl

example :
    checkUsedRequredOpts
      (.vStruct (.cons ⟨"Name", "name", "required"⟩ (.vString "") .nil)) "" []
      = .error "required option 'name' is not specified" := rfl

example :
    sessionAfterDecode
      (.vStruct (.cons ⟨"Job", "job", ""⟩
        (.vStruct (.cons ⟨"Name", "name", "required"⟩ (.vString "") .nil)) .nil))
      [] [] false
      = .error "required option 'job.name' is not specified" := rfl

example : decodeFromString (fun _ => "") .tString .tString (.gStr "ENV:HOME")
    = .error "empty ENV variable 'HOME'" := rfl

example : decodeFromString (fun n => if n = "HOME" then "/root" else "") .tString .tString
    (.gStr "xxENV:HOME") = .ok (.gStr "/root") := rfl

/-! ## The violations of the required-field validator

`requiredViolations` lists, in the traversal order of `checkUsedRequredOpts`
(struct fields in declaration order, slice elements in index order, map
entries in spine order), the full paths of the struct fields whose
`conf_extraopts` tag contains the `required` key and whose path is absent
from the used keys.  The characterization lemma below shows the validator
fails with exactly the first element of this list. -/

mutual
def requiredViolations (val : Val) (parentName : String) (keys : List String) : List String :=
  match val with
  | .vPtrNil => []
  | .vPtr inner => requiredViolationsBody inner parentName keys
  | .vStruct fields => violFields fields parentName keys
  | .vSlice elems => violElems elems parentName 0 keys
  | .vMap entries => violEntries entries parentName keys
  | _ => []

def requiredViolationsBody (val : Val) (parentName : String) (keys : List String) : List String :=
  match val with
  | .vStruct fields => violFields fields parentName keys
  | .vSlice elems => violElems elems parentName 0 keys
  | .vMap entries => violEntries entries parentName keys
  | _ => []

def violFields (fields : Fields) (parentName : String) (keys : List String) : List String :=
  match fields with
  | .nil => []
  | .cons tf vf rest =>
    let elName :=
      if parentName ≠ "" then parentName ++ "." ++ fieldNameNormalize tf
      else fieldNameNormalize tf
    (if tagKeyCheck tf.extraTag tagConfRequiredName = true ∧ optIsUsed elName keys = false then
      [elName]
    else []) ++ requiredViolations vf elName keys ++ violFields rest parentName keys

def violElems (elems : Elems) (parentName : String) (i : Nat) (keys : List String) : List String :=
  match elems with
  | .nil => []
  | .cons vf rest =>
    let elName := parentName ++ "[" ++ toString i ++ "]"
    requiredViolations vf elName keys ++ violElems rest parentName (i + 1) keys

def violEntries (entries : Entries) (parentName : String) (keys : List String) : List String :=
  match entries with
  | .nil => []
  | .cons k vf rest =>
    let elName := parentName ++ "[" ++ k ++ "]"
    requiredViolations vf elName keys ++ violEntries rest parentName keys
end

/-- The error message of the required-field validator for a violating path. -/
def requiredErr (p : String) : String := "required option '" ++ p ++ "' is not specified"

/-- The result the validator must produce given a violation list: success when
it is empty, the error naming its first element otherwise. -/
def firstViolationResult (l : List String) : Except String Unit :=
  match l with
  | [] => .ok ()
  | q :: _ => .error (requiredErr q)

mutual
theorem checkRequired_spec (val : Val) (p : String) (keys : List String) :
    checkUsedRequredOpts val p keys = firstViolationResult (requiredViolations val p keys) :=
  match val with
  | .vPtrNil => rfl
  | .vPtr inner => checkRequiredBody_spec inner p keys
  | .vStruct fields => checkRequiredFields_spec fields p keys
  | .vSlice elems => checkRequiredElems_spec elems p 0 keys
  | .vMap entries => checkRequiredEntries_spec entries p keys
  | .vBool _ => rfl
  | .vInt _ _ => rfl
  | .vUint _ _ => rfl
  | .vFloat _ _ => rfl
  | .vString _ => rfl
  | .vOther => rfl

theorem checkRequiredBody_spec (val : Val) (p : String) (keys : List String) :
    checkRequiredBody val p keys = firstViolationResult (requiredViolationsBody val p keys) :=
  match val with
  | .vStruct fields => checkRequiredFields_spec fields p keys
  | .vSlice elems => checkRequiredElems_spec elems p 0 keys
  | .vMap entries => checkRequiredEntries_spec entries p keys
  | .vBool _ => rfl
  | .vInt _ _ => rfl
  | .vUint _ _ => rfl
  | .vFloat _ _ => rfl
  | .vString _ => rfl
  | .vOther => rfl
  | .vPtrNil => rfl
  | .vPtr _ => rfl

theorem checkRequiredFields_spec (fields : Fields) (p : String) (keys : List String) :
    checkRequiredFields fields p keys = firstViolationResult (violFields fields p keys) :=
  match fields with
  | .nil => rfl
  | .cons tf vf rest => by
    rw [checkRequiredFields, violFields]
    by_cases h : tagKeyCheck tf.extraTag tagConfRequiredName = true
        ∧ optIsUsed (if p ≠ "" then p ++ "." ++ fieldNameNormalize tf
          else fieldNameNormalize tf) keys = false
    · simp only [h, if_true, if_pos]
      rfl
    · simp only [h, if_neg, if_false]
      rw [checkRequired_spec vf _ keys]
      cases hv : requiredViolations vf
          (if p ≠ "" then p ++ "." ++ fieldNameNormalize tf else fieldNameNormalize tf) keys with
      | nil =>
        simp only [firstViolationResult, List.nil_append]
        exact checkRequiredFields_spec rest p keys
      | cons q qs => rfl

theorem checkRequiredElems_spec (elems : Elems) (p : String) (i : Nat) (keys : List String) :
    checkRequiredElems elems p i keys = firstViolationResult (violElems elems p i keys) :=
  match elems with
  | .nil => rfl
  | .cons vf rest => by
    rw [checkRequiredElems, violElems]
    rw [checkRequired_spec vf _ keys]
    cases hv : requiredViolations vf (p ++ "[" ++ toString i ++ "]") keys with
    | nil =>
      simp only [firstViolationResult, List.nil_append]
      exact checkRequiredElems_spec rest p (i + 1) keys
    | cons q qs => rfl

theorem checkRequiredEntries_spec (entries : Entries) (p : String) (keys : List String) :
    checkRequiredEntries entries p keys = firstViolationResult (violEntries entries p keys) :=
  match entries with
  | .nil => rfl
  | .cons k vf rest => by
    rw [checkRequiredEntries, violEntries]
    rw [checkRequired_spec vf _ keys]
    cases hv : requiredViolations vf (p ++ "[" ++ k ++ "]") keys with
    | nil =>
      simp only [firstViolationResult, List.nil_append]
      exact checkRequiredEntries_spec rest p keys
    | cons q qs => rfl
end

/-! ## Path construction of the two traversals (claim C8)

`setDefaultsPaths` transcribes the element-path expressions of `setDefaults`
(conf.go lines 204–246) and `checkRequiredPaths` those of
`checkUsedRequredOpts` (conf.go lines 290–332): each lists, in traversal
order, the full path constructed for every struct field, sequence element and
map entry reached from a value under a parent path, together with the paths
constructed inside that member.  They are kept as two separate definitions,
each derived from its own Go function, so that their equality is the formal
statement that both functions build paths identically. -/

mutual
def setDefaultsPaths (val : Val) (parentName : String) : List String :=
  match val with
  | .vPtrNil => []
  | .vPtr inner => setDefaultsPathsBody inner parentName
  | .vStruct fields => sdPathsFields fields parentName
  | .vSlice elems => sdPathsElems elems parentName 0
  | .vMap entries => sdPathsEntries entries parentName
  | _ => []

def setDefaultsPathsBody (val : Val) (parentName : String) : List String :=
  match val with
  | .vStruct fields => sdPathsFields fields parentName
  | .vSlice elems => sdPathsElems elems parentName 0
  | .vMap entries => sdPathsEntries entries parentName
  | _ => []

def sdPathsFields (fields : Fields) (parentName : String) : List String :=
  match fields with
  | .nil => []
  | .cons tf vf rest =>
    let elName :=
      if parentName ≠ "" then parentName ++ "." ++ fieldNameNormalize tf
      else fieldNameNormalize tf
    elName :: (setDefaultsPaths vf elName ++ sdPathsFields rest parentName)

def sdPathsElems (elems : Elems) (parentName : String) (i : Nat) : List String :=
  match elems with
  | .nil => []
  | .cons vf rest =>
    let elName := parentName ++ "[" ++ toString i ++ "]"
    elName :: (setDefaultsPaths vf elName ++ sdPathsElems rest parentName (i + 1))

def sdPathsEntries (entries : Entries) (parentName : String) : List String :=
  match entries with
  | .nil => []
  | .cons k vf rest =>
    let elName := parentName ++ "[" ++ k ++ "]"
    elName :: (setDefaultsPaths vf elName ++ sdPathsEntries rest parentName)
end

mutual
def checkRequiredPaths (val : Val) (parentName : String) : List String :=
  match val with
  | .vPtrNil => []
  | .vPtr inner => checkRequiredPathsBody inner parentName
  | .vStruct fields => crPathsFields fields parentName
  | .vSlice elems => crPathsElems elems parentName 0
  | .vMap entries => crPathsEntries entries parentName
  | _ => []

def checkRequiredPathsBody (val : Val) (parentName : String) : List String :=
  match val with
  | .vStruct fields => crPathsFields fields parentName
  | .vSlice elems => crPathsElems elems parentName 0
  | .vMap entries => crPathsEntries entries parentName
  | _ => []

def crPathsFields (fields : Fields) (parentName : String) : List String :=
  match fields with
  | .nil => []
  | .cons tf vf rest =>
    let elName :=
      if parentName ≠ "" then parentName ++ "." ++ fieldNameNormalize tf
      else fieldNameNormalize tf
    elName :: (checkRequiredPaths vf elName ++ crPathsFields rest parentName)

def crPathsElems (elems : Elems) (parentName : String) (i : Nat) : List String :=
  match elems with
  | .nil => []
  | .cons vf rest =>
    let elName := parentName ++ "[" ++ toString i ++ "]"
    elName :: (checkRequiredPaths vf elName ++ crPathsElems rest parentName (i + 1))

def crPathsEntries (entries : Entries) (parentName : String) : List String :=
  match entries with
  | .nil => []
  | .cons k vf rest =>
    let elName := parentName ++ "[" ++ k ++ "]"
    elName :: (checkRequiredPaths vf elName ++ crPathsEntries rest parentName)
end

mutual
theorem sdPaths_eq_crPaths (val : Val) (p : String) :
    setDefaultsPaths val p = checkRequiredPaths val p :=
  match val with
  | .vPtrNil => rfl
  | .vPtr inner => sdPathsBody_eq inner p
  | .vStruct fields => sdPathsFields_eq fields p
  | .vSlice elems => sdPathsElems_eq elems p 0
  | .vMap entries => sdPathsEntries_eq entries p
  | .vBool _ => rfl
  | .vInt _ _ => rfl
  | .vUint _ _ => rfl
  | .vFloat _ _ => rfl
  | .vString _ => rfl
  | .vOther => rfl

theorem sdPathsBody_eq (val : Val) (p : String) :
    setDefaultsPathsBody val p = checkRequiredPathsBody val p :=
  match val with
  | .vStruct fields => sdPathsFields_eq fields p
  | .vSlice elems => sdPathsElems_eq elems p 0
  | .vMap entries => sdPathsEntries_eq entries p
  | .vBool _ => rfl
  | .vInt _ _ => rfl
  | .vUint _ _ => rfl
  | .vFloat _ _ => rfl
  | .vString _ => rfl
  | .vOther => rfl
  | .vPtrNil => rfl
  | .vPtr _ => rfl

theorem sdPathsFields_eq (fields : Fields) (p : String) :
    sdPathsFields fields p = crPathsFields fields p :=
  match fields with
  | .nil => rfl
  | .cons tf vf rest => by
    rw [sdPathsFields, crPathsFields,
      sdPaths_eq_crPaths vf _, sdPathsFields_eq rest p]

theorem sdPathsElems_eq (elems : Elems) (p : String) (i : Nat) :
    sdPathsElems elems p i = crPathsElems elems p i :=
  match elems with
  | .nil => rfl
  | .cons vf rest => by
    rw [sdPathsElems, crPathsElems,
      sdPaths_eq_crPaths vf _, sdPathsElems_eq rest p (i + 1)]

theorem sdPathsEntries_eq (entries : Entries) (p : String) :
    sdPathsEntries entries p = crPathsEntries entries p :=
  match entries with
  | .nil => rfl
  | .cons k vf rest => by
    rw [sdPathsEntries, crPathsEntries,
      sdPaths_eq_crPaths vf _, sdPathsEntries_eq rest p]
end

/-! ## The default applier leaves the required-violation structure unchanged

`setDefaults` reads the used-key list (in `optIsUsed`) but never writes it,
and it only replaces leaf payloads, so the violation list the required-field
validator computes afterwards is exactly the one of the original decoded
value.  This is the formal backbone of claim C5. -/

theorem leafDefault_viol (v : Val) (p : String) (dv : DefaultVal) (keys : List String) (w : Val)
    (h : leafDefault v p dv keys = .ok w) :
    (∀ q k2, requiredViolations w q k2 = requiredViolations v q k2) ∧
    (∀ q k2, requiredViolationsBody w q k2 = requiredViolationsBody v q k2) := by
  unfold leafDefault at h
  split at h
  case isFalse => injection h with h; subst h; exact ⟨fun _ _ => rfl, fun _ _ => rfl⟩
  case isTrue hg =>
    cases v
    case vBool b =>
      simp only [leafTy, convFromString] at h
      cases hp : parseBool dv.value <;> rw [hp] at h <;> simp only [Except.map] at h
      · exact absurd h (by simp)
      · injection h with h; subst h; exact ⟨fun _ _ => rfl, fun _ _ => rfl⟩
    case vInt bits x =>
      simp only [leafTy, convFromString] at h
      cases hp : parseIntGo dv.value bits <;> rw [hp] at h <;> simp only [Except.map] at h
      · exact absurd h (by simp)
      · injection h with h; subst h; exact ⟨fun _ _ => rfl, fun _ _ => rfl⟩
    case vUint bits x =>
      simp only [leafTy, convFromString] at h
      cases hp : parseUintGo dv.value bits <;> rw [hp] at h <;> simp only [Except.map] at h
      · exact absurd h (by simp)
      · injection h with h; subst h; exact ⟨fun _ _ => rfl, fun _ _ => rfl⟩
    case vFloat bits x =>
      simp only [leafTy, convFromString] at h
      cases hp : parseFloatGo dv.value bits <;> rw [hp] at h <;> simp only [Except.map] at h
      · exact absurd h (by simp)
      · injection h with h; subst h; exact ⟨fun _ _ => rfl, fun _ _ => rfl⟩
    case vString s =>
      simp only [leafTy, convFromString] at h
      injection h with h; subst h; exact ⟨fun _ _ => rfl, fun _ _ => rfl⟩
    case vOther => simp only [leafTy, convFromString] at h; exact absurd h (by simp)
    case vStruct fields => simp only [leafTy, convFromString] at h; exact absurd h (by simp)
    case vSlice elems => simp only [leafTy, convFromString] at h; exact absurd h (by simp)
    case vMap entries => simp only [leafTy, convFromString] at h; exact absurd h (by simp)
    case vPtrNil => simp only [leafTy, convFromString] at h; exact absurd h (by simp)
    case vPtr inner => simp only [leafTy, convFromString] at h; exact absurd h (by simp)

mutual
theorem setDefaults_viol (val : Val) (p : String) (dv : DefaultVal) (keys : List String)
    (w : Val) (h : setDefaults val p dv keys = .ok w) (q : String) (k2 : List String) :
    requiredViolations w q k2 = requiredViolations val q k2 :=
  match val with
  | .vPtrNil => by rw [setDefaults] at h; injection h with h; subst h; rfl
  | .vPtr inner => by
    rw [setDefaults] at h
    cases hb : setDefaultsBody inner p dv keys with
    | error e => rw [hb] at h; simp only [Except.map] at h; exact absurd h (by simp)
    | ok wi =>
      rw [hb] at h; simp only [Except.map] at h; injection h with h; subst h
      exact setDefaultsBody_viol inner p dv keys wi hb q k2
  | .vStruct fields => by
    rw [setDefaults] at h
    cases hb : setDefaultsFields fields p keys with
    | error e => rw [hb] at h; simp only [Except.map] at h; exact absurd h (by simp)
    | ok wf =>
      rw [hb] at h; simp only [Except.map] at h; injection h with h; subst h
      exact setDefaultsFields_viol fields p keys wf hb q k2
  | .vSlice elems => by
    rw [setDefaults] at h
    cases hb : setDefaultsElems elems p 0 keys with
    | error e => rw [hb] at h; simp only [Except.map] at h; exact absurd h (by simp)
    | ok we =>
      rw [hb] at h; simp only [Except.map] at h; injection h with h; subst h
      exact setDefaultsElems_viol elems p 0 keys we hb q k2
  | .vMap entries => by
    rw [setDefaults] at h
    cases hb : setDefaultsEntries entries p keys with
    | error e => rw [hb] at h; simp only [Except.map] at h; exact absurd h (by simp)
    | ok we =>
      rw [hb] at h; simp only [Except.map] at h; injection h with h; subst h
      exact setDefaultsEntries_viol entries p keys we hb q k2
  | .vBool _ => (leafDefault_viol _ p dv keys w h).1 q k2
  | .vInt _ _ => (leafDefault_viol _ p dv keys w h).1 q k2
  | .vUint _ _ => (leafDefault_viol _ p dv keys w h).1 q k2
  | .vFloat _ _ => (leafDefault_viol _ p dv keys w h).1 q k2
  | .vString _ => (leafDefault_viol _ p dv keys w h).1 q k2
  | .vOther => (leafDefault_viol _ p dv keys w h).1 q k2

theorem setDefaultsBody_viol (val : Val) (p : String) (dv : DefaultVal) (keys : List String)
    (w : Val) (h : setDefaultsBody val p dv keys = .ok w) (q : String) (k2 : List String) :
    requiredViolationsBody w q k2 = requiredViolationsBody val q k2 :=
  match val with
  | .vStruct fields => by
    rw [setDefaultsBody] at h
    cases hb : setDefaultsFields fields p keys with
    | error e => rw [hb] at h; simp only [Except.map] at h; exact absurd h (by simp)
    | ok wf =>
      rw [hb] at h; simp only [Except.map] at h; injection h with h; subst h
      exact setDefaultsFields_viol fields p keys wf hb q k2
  | .vSlice elems => by
    rw [setDefaultsBody] at h
    cases hb : setDefaultsElems elems p 0 keys with
    | error e => rw [hb] at h; simp only [Except.map] at h; exact absurd h (by simp)
    | ok we =>
      rw [hb] at h; simp only [Except.map] at h; injection h with h; subst h
      exact setDefaultsElems_viol elems p 0 keys we hb q k2
  | .vMap entries => by
    rw [setDefaultsBody] at h
    cases hb : setDefaultsEntries entries p keys with
    | error e => rw [hb] at h; simp only [Except.map] at h; exact absurd h (by simp)
    | ok we =>
      rw [hb] at h; simp only [Except.map] at h; injection h with h; subst h
      exact setDefaultsEntries_viol entries p keys we hb q k2
  | .vBool _ => (leafDefault_viol _ p dv keys w h).2 q k2
  | .vInt _ _ => (leafDefault_viol _ p dv keys w h).2 q k2
  | .vUint _ _ => (leafDefault_viol _ p dv keys w h).2 q k2
  | .vFloat _ _ => (leafDefault_viol _ p dv keys w h).2 q k2
  | .vString _ => (leafDefault_viol _ p dv keys w h).2 q k2
  | .vOther => (leafDefault_viol _ p dv keys w h).2 q k2
  | .vPtrNil => (leafDefault_viol _ p dv keys w h).2 q k2
  | .vPtr _ => (leafDefault_viol _ p dv keys w h).2 q k2

theorem setDefaultsFields_viol (fields : Fields) (p : String) (keys : List String)
    (w : Fields) (h : setDefaultsFields fields p keys = .ok w) (q : String) (k2 : List String) :
    violFields w q k2 = violFields fields q k2 :=
  match fields with
  | .nil => by rw [setDefaultsFields] at h; injection h with h; subst h; rfl
  | .cons tf vf rest => by
    rw [setDefaultsFields] at h
    cases hv : setDefaults vf
        (if p ≠ "" then p ++ "." ++ fieldNameNormalize tf else fieldNameNormalize tf)
        ⟨(tagValGet tf.extraTag tagConfDefaultName).1,
          (tagValGet tf.extraTag tagConfDefaultName).2⟩ keys with
    | error e => rw [hv] at h; exact absurd h (by simp)
    | ok w1 =>
      rw [hv] at h
      cases hr : setDefaultsFields rest p keys with
      | error e => rw [hr] at h; simp only [Except.map] at h; exact absurd h (by simp)
      | ok wr =>
        rw [hr] at h; simp only [Except.map] at h; injection h with h; subst h
        show _ ++ requiredViolations w1 _ k2 ++ violFields wr q k2 = _
        rw [setDefaults_viol vf _ _ keys w1 hv _ k2, setDefaultsFields_viol rest p keys wr hr q k2]
        rfl

theorem setDefaultsElems_viol (elems : Elems) (p : String) (i : Nat) (keys : List String)
    (w : Elems) (h : setDefaultsElems elems p i keys = .ok w) (q : String) (k2 : List String) :
    violElems w q i k2 = violElems elems q i k2 :=
  match elems with
  | .nil => by rw [setDefaultsElems] at h; injection h with h; subst h; rfl
  | .cons vf rest => by
    rw [setDefaultsElems] at h
    cases hv : setDefaults vf (p ++ "[" ++ toString i ++ "]") ⟨"", false⟩ keys with
    | error e => rw [hv] at h; exact absurd h (by simp)
    | ok w1 =>
      rw [hv] at h
      cases hr : setDefaultsElems rest p (i + 1) keys with
      | error e => rw [hr] at h; simp only [Except.map] at h; exact absurd h (by simp)
      | ok wr =>
        rw [hr] at h; simp only [Except.map] at h; injection h with h; subst h
        show requiredViolations w1 _ k2 ++ violElems wr q (i + 1) k2 = _
        rw [setDefaults_viol vf _ _ keys w1 hv _ k2,
          setDefaultsElems_viol rest p (i + 1) keys wr hr q k2]
        rfl

theorem setDefaultsEntries_viol (entries : Entries) (p : String) (keys : List String)
    (w : Entries) (h : setDefaultsEntries entries p keys = .ok w) (q : String) (k2 : List String) :
    violEntries w q k2 = violEntries entries q k2 :=
  match entries with
  | .nil => by rw [setDefaultsEntries] at h; injection h with h; subst h; rfl
  | .cons k vf rest => by
    rw [setDefaultsEntries] at h
    cases hv : setDefaults vf (p ++ "[" ++ k ++ "]") ⟨"", false⟩ keys with
    | error e => rw [hv] at h; exact absurd h (by simp)
    | ok w1 =>
      rw [hv] at h
      cases hr : setDefaultsEntries rest p keys with
      | error e => rw [hr] at h; simp only [Except.map] at h; exact absurd h (by simp)
      | ok wr =>
        rw [hr] at h; simp only [Except.map] at h; injection h with h; subst h
        show requiredViolations w1 _ k2 ++ violEntries wr q k2 = _
        rw [setDefaults_viol vf _ _ keys w1 hv _ k2,
          setDefaultsEntries_viol rest p keys wr hr q k2]
        rfl
end

/-! ## Claim C2 — the required-field validator and its first violation -/

/-- C2: for every struct field whose extended-options tag contains the
`required` key and whose full path (dotted record segments, `[index]` sequence
segments, `[key]` map segments) is absent from the used keys,
`checkUsedRequredOpts` fails with `required option '<path>' is not
specified` naming that exact path; the first violation in traversal order —
declaration order for struct fields, index order for slice elements — wins and
traversal stops there.  `requiredViolations` lists precisely these violating
paths in the traversal order of the validator, and the validator's result is
success exactly when that list is empty and otherwise the error naming its
head. -/
theorem required_missing_first_violation (val : Val) (parentName : String) (keys : List String) :
    checkUsedRequredOpts val parentName keys
      = firstViolationResult (requiredViolations val parentName keys) :=
  checkRequired_spec val parentName keys

/-! ## Claim C8 — both traversals build every path the same way -/

/-- C8: for every target value and parent path, the default applier and the
required-field validator construct the full path of every reached field,
sequence element and map entry identically: record segments joined with `.`
(or the bare name at the root), sequence elements as `[index]`, map entries as
`[key]`.  `setDefaultsPaths` transcribes the path expressions of
`setDefaults` and `checkRequiredPaths` those of `checkUsedRequredOpts`; the
two agree on every value, so the paths both functions compare against the
used-path list coincide for the same field. -/
theorem paths_constructed_identically (val : Val) (parentName : String) :
    setDefaultsPaths val parentName = checkRequiredPaths val parentName :=
  sdPaths_eq_crPaths val parentName

/-! ## Claim C4 — strict mode and unknown keys -/

/-- C4: with strict mode on (`unknownDeny = true`) and a non-empty unused-key
list, the session fails with `unknown option '<key>'` naming the
first-encountered unused key; with `unknownDeny = false` the same input
succeeds — the result of the session does not depend on the unused keys at
all, they are silently ignored. -/
theorem unknown_opts_strict_mode :
    (∀ u us, checkUnknownOpts true (u :: us) = .error ("unknown option '" ++ u ++ "'")) ∧
    (∀ unused, checkUnknownOpts false unused = .ok ()) ∧
    (∀ v keys unused unused',
      sessionAfterDecode v keys unused false = sessionAfterDecode v keys unused' false) ∧
    (∀ v keys unused w, sessionAfterDecode v keys unused false = .ok w →
      ∀ u us, sessionAfterDecode v keys (u :: us) true = .error ("unknown option '" ++ u ++ "'")) := by
  refine ⟨fun u us => by simp [checkUnknownOpts], fun unused => by simp [checkUnknownOpts], ?_, ?_⟩
  · intro v keys unused unused'
    unfold sessionAfterDecode
    cases setDefaults v "" ⟨"", false⟩ keys with
    | error e => rfl
    | ok v' =>
      dsimp only
      cases checkUsedRequredOpts v' "" keys with
      | error e => rfl
      | ok u0 => simp [checkUnknownOpts]
  · intro v keys unused w h u us
    unfold sessionAfterDecode at h ⊢
    cases hsd : setDefaults v "" ⟨"", false⟩ keys with
    | error e => rw [hsd] at h; dsimp only at h; exact absurd h (by simp)
    | ok v' =>
      rw [hsd] at h
      dsimp only at h ⊢
      cases hcr : checkUsedRequredOpts v' "" keys with
      | error e => rw [hcr] at h; dsimp only at h; exact absurd h (by simp)
      | ok u0 =>
        rw [hcr] at h
        dsimp only at h ⊢
        simp [checkUnknownOpts]

/-- Witness for C4 at a concrete session: an empty struct target with one
unused input key succeeds in non-strict mode and fails in strict mode naming
that key. -/
theorem unknown_opts_strict_mode_witness :
    sessionAfterDecode (.vStruct .nil) [] ["opt"] true = .error "unknown option 'opt'" :=
  unknown_opts_strict_mode.2.2.2 (.vStruct .nil) [] [] (.vStruct .nil) rfl "opt" []

/-! ## Claim C5 — defaults never satisfy the required check -/

/-- C5: the used-path list is read but never extended by the default applier
(`setDefaults` takes `keys` as read-only input and `requiredViolations` of the
original decoded value is computed against that same list), and the stages run
in the fixed order Decode → Apply-Defaults → Check-Required → Check-Unknown.
Consequently, whenever the default application pass succeeds and the decoded
value still has a first required-but-unused field — in particular a field
tagged both `required` and `default` that is absent from the input, whose
default was just filled in — the session fails with the required-missing
error for that field's path. -/
theorem defaults_do_not_satisfy_required (v : Val) (keys unused : List String)
    (unknownDeny : Bool) (v' : Val) (q : String) (qs : List String)
    (hsd : setDefaults v "" ⟨"", false⟩ keys = .ok v')
    (hviol : requiredViolations v "" keys = q :: qs) :
    sessionAfterDecode v keys unused unknownDeny = .error (requiredErr q) := by
  unfold sessionAfterDecode
  rw [hsd]
  dsimp only
  rw [checkRequired_spec v' "" keys,
    setDefaults_viol v "" ⟨"", false⟩ keys v' hsd "" keys, hviol]
  rfl

/-- Witness for C5: a field tagged `required,default=John`, absent from the
input (`keys = []`): the default applier fills `John` in and succeeds, yet the
session still fails with the required-missing error for `name`. -/
theorem defaults_do_not_satisfy_required_witness :
    sessionAfterDecode
      (.vStruct (.cons ⟨"Name", "name", "required,default=John"⟩ (.vString "") .nil))
      [] [] false
      = .error "required option 'name' is not specified" :=
  defaults_do_not_satisfy_required
    (.vStruct (.cons ⟨"Name", "name", "required,default=John"⟩ (.vString "") .nil))
    [] [] false
    (.vStruct (.cons ⟨"Name", "name", "required,default=John"⟩ (.vString "John") .nil))
    "name" [] rfl rfl

/-! ## Claim C6 — defaults on record/sequence/map fields -/

/-- Container kinds of the target value: records, sequences, maps. -/
def isContainerVal : Val → Bool
  | .vStruct _ => true
  | .vSlice _ => true
  | .vMap _ => true
  | _ => false

/-- Counterexample to C6 as stated: a record-kind field with a declared
default (`conf_extraopts:"default=x"`), a sequence-kind field and a map-kind
field with declared defaults all pass through `setDefaults` and through the
whole session without any error — the session does not fail fast on a default
declared for a non-scalar field. -/
theorem default_on_container_counterexample :
    setDefaults (.vStruct (.cons ⟨"Sub", "", "default=x"⟩ (.vStruct .nil) .nil))
        "" ⟨"", false⟩ []
      = .ok (.vStruct (.cons ⟨"Sub", "", "default=x"⟩ (.vStruct .nil) .nil)) ∧
    sessionAfterDecode (.vStruct (.cons ⟨"Sub", "", "default=x"⟩ (.vStruct .nil) .nil)) [] [] true
      = .ok (.vStruct (.cons ⟨"Sub", "", "default=x"⟩ (.vStruct .nil) .nil)) ∧
    sessionAfterDecode
        (.vStruct (.cons ⟨"List", "", "default=x"⟩ (.vSlice (.cons (.vInt 64 1) .nil)) .nil))
        [] [] true
      = .ok (.vStruct (.cons ⟨"List", "", "default=x"⟩ (.vSlice (.cons (.vInt 64 1) .nil)) .nil)) ∧
    sessionAfterDecode
        (.vStruct (.cons ⟨"Map", "", "default=x"⟩ (.vMap (.cons "k" (.vInt 64 1) .nil)) .nil))
        [] [] true
      = .ok (.vStruct (.cons ⟨"Map", "", "default=x"⟩ (.vMap (.cons "k" (.vInt 64 1) .nil)) .nil)) :=
  ⟨rfl, rfl, rfl, rfl⟩

/-- C6 amended: a default declared on a record-, sequence- or map-kind field
is silently ignored — `setDefaults` recurses into the container identically
whatever default declaration is carried down to it — and the descriptive
internal error naming the field (`internal error, default value not available
for this field type '<path>'`) arises only for a leaf whose kind is outside
the supported scalar set (modelled by `vOther`, e.g. a complex number), with
its default set and its path unused. -/
theorem default_ignored_on_containers :
    (∀ v p dv dv' keys, isContainerVal v = true →
      setDefaults v p dv keys = setDefaults v p dv' keys) ∧
    (∀ p s keys, optIsUsed p keys = false →
      setDefaults .vOther p ⟨s, true⟩ keys
        = .error ("internal error, default value not available for this field type `"
            ++ p ++ "`")) := by
  constructor
  · intro v p dv dv' keys h
    cases v <;> simp [isContainerVal] at h <;> rfl
  · intro p s keys hu
    show leafDefault .vOther p ⟨s, true⟩ keys = _
    simp [leafDefault, hu, leafTy, convFromString]

/-- Witness for the amended C6: a record field ignores its default whatever
it is, and an unsupported-kind leaf with a set default and unused path raises
the internal error naming its path. -/
theorem default_ignored_on_containers_witness :
    setDefaults (.vStruct .nil) "p" ⟨"x", true⟩ [] = setDefaults (.vStruct .nil) "p" ⟨"", false⟩ []
      ∧ setDefaults .vOther "p" ⟨"x", true⟩ []
        = .error "internal error, default value not available for this field type `p`" :=
  ⟨default_ignored_on_containers.1 (.vStruct .nil) "p" ⟨"x", true⟩ ⟨"", false⟩ [] rfl,
    default_ignored_on_containers.2 "p" "x" [] rfl⟩

/-! ## Claims C1 and C9 — scalar leaves, defaults and used paths -/

/-- The scalar leaf kinds: the five groups of `setDefaults`' inner switch. -/
def isScalarLeaf : Val → Bool
  | .vBool _ => true
  | .vInt _ _ => true
  | .vUint _ _ => true
  | .vFloat _ _ => true
  | .vString _ => true
  | _ => false

/-- Written from the spec's words for claim C1: parse the default string with
the coercion rules of the decoder at the leaf's exact scalar kind and width,
and assign the parsed value in place of the leaf's payload. -/
def applyDefaultSpec (v : Val) (s : String) : Except String Val :=
  match v with
  | .vBool _ => (parseBool s).map .vBool
  | .vInt bits _ => (parseIntGo s bits).map (.vInt bits)
  | .vUint bits _ => (parseUintGo s bits).map (.vUint bits)
  | .vFloat bits _ => (parseFloatGo s bits).map (.vFloat bits)
  | .vString _ => .ok (.vString s)
  | w => .ok w

theorem setDefaults_leaf_eq (v : Val) (hleaf : isScalarLeaf v = true) (p : String)
    (dv : DefaultVal) (keys : List String) :
    setDefaults v p dv keys = leafDefault v p dv keys := by
  cases v <;> first | rfl | simp [isScalarLeaf] at hleaf

theorem leafDefault_used (v : Val) (p : String) (dv : DefaultVal) (keys : List String)
    (hu : optIsUsed p keys = true) : leafDefault v p dv keys = .ok v := by
  simp [leafDefault, hu]

theorem leafDefault_unused_error (v : Val) (p s e : String) (keys : List String)
    (hconv : convFromString s (leafTy v) = .error e)
    (hu : optIsUsed p keys = false) : leafDefault v p ⟨s, true⟩ keys = .error e := by
  simp [leafDefault, hu, hconv]

theorem checkRequired_leaf (v : Val) (hleaf : isScalarLeaf v = true) (p : String)
    (keys : List String) : checkUsedRequredOpts v p keys = .ok () := by
  cases v <;> first | rfl | simp [isScalarLeaf] at hleaf

/-- C1: for every scalar leaf with a declared default (`isSet = true`): if the
leaf's full path is absent from the used keys, the default applier parses the
default string at the leaf's exact scalar kind and assigns the result
(`applyDefaultSpec`); if the path is present among the used keys, the decoded
value is left untouched — the input always wins over the default. -/
theorem scalar_default_application (v : Val) (p s : String) (keys : List String)
    (hleaf : isScalarLeaf v = true) :
    (optIsUsed p keys = true → setDefaults v p ⟨s, true⟩ keys = .ok v) ∧
    (optIsUsed p keys = false → setDefaults v p ⟨s, true⟩ keys = applyDefaultSpec v s) := by
  rw [setDefaults_leaf_eq v hleaf p ⟨s, true⟩ keys]
  constructor
  · intro hu
    exact leafDefault_used v p ⟨s, true⟩ keys hu
  · intro hu
    cases v <;> simp [isScalarLeaf] at hleaf
    case vBool b =>
      cases hp : parseBool s <;>
        simp [leafDefault, hu, leafTy, convFromString, applyDefaultSpec, hp, Except.map]
    case vInt bits x =>
      cases hp : parseIntGo s bits <;>
        simp [leafDefault, hu, leafTy, convFromString, applyDefaultSpec, hp, Except.map]
    case vUint bits x =>
      cases hp : parseUintGo s bits <;>
        simp [leafDefault, hu, leafTy, convFromString, applyDefaultSpec, hp, Except.map]
    case vFloat bits x =>
      cases hp : parseFloatGo s bits <;>
        simp [leafDefault, hu, leafTy, convFromString, applyDefaultSpec, hp, Except.map]
    case vString str =>
      simp [leafDefault, hu, leafTy, convFromString, applyDefaultSpec]

/-- Witness for C1: an integer field with `default=18`: absent from the used
keys it becomes `18` (parsed at the 64-bit signed integer kind); present, the
decoded value `0` stays. -/
theorem scalar_default_application_witness :
    setDefaults (.vInt 64 0) "age" ⟨"18", true⟩ [] = .ok (.vInt 64 18) ∧
    setDefaults (.vInt 64 0) "age" ⟨"18", true⟩ ["age"] = .ok (.vInt 64 0) := by
  constructor
  · rw [(scalar_default_application (.vInt 64 0) "age" "18" [] rfl).2 rfl]; rfl
  · exact (scalar_default_application (.vInt 64 0) "age" "18" ["age"] rfl).1 rfl

/-- C9: a malformed default string on a scalar field (here: a default that
`convFromString` rejects at the field's kind) causes the conversion error only
when the field's path is absent from the used keys; when the input supplies
the field, the default string is never parsed and the session succeeds despite
the malformed default (granted the field is not also required and strict mode
finds nothing unknown). -/
theorem malformed_default_only_when_unused (v : Val) (fi : FieldInfo) (s e : String)
    (keys unused : List String)
    (hleaf : isScalarLeaf v = true)
    (hdef : tagValGet fi.extraTag tagConfDefaultName = (s, true))
    (hconv : convFromString s (leafTy v) = .error e) :
    (optIsUsed (fieldNameNormalize fi) keys = false →
      sessionAfterDecode (.vStruct (.cons fi v .nil)) keys unused false = .error e) ∧
    (optIsUsed (fieldNameNormalize fi) keys = true →
      tagKeyCheck fi.extraTag tagConfRequiredName = false →
      sessionAfterDecode (.vStruct (.cons fi v .nil)) keys unused false
        = .ok (.vStruct (.cons fi v .nil))) := by
  constructor
  · intro hu
    have h1 : setDefaults (.vStruct (.cons fi v .nil)) "" ⟨"", false⟩ keys = .error e := by
      show Except.map Val.vStruct (setDefaultsFields (.cons fi v .nil) "" keys) = .error e
      rw [setDefaultsFields]
      simp only [ne_eq, not_true_eq_false, if_false, hdef,
        setDefaults_leaf_eq v hleaf _ _ keys,
        leafDefault_unused_error v _ s e keys hconv hu]
      rfl
    unfold sessionAfterDecode
    rw [h1]
  · intro hu hreq
    have h1 : setDefaults (.vStruct (.cons fi v .nil)) "" ⟨"", false⟩ keys
        = .ok (.vStruct (.cons fi v .nil)) := by
      show Except.map Val.vStruct (setDefaultsFields (.cons fi v .nil) "" keys) = _
      rw [setDefaultsFields]
      simp only [ne_eq, not_true_eq_false, if_false, hdef,
        setDefaults_leaf_eq v hleaf _ _ keys, leafDefault_used v _ _ keys hu]
      rfl
    have h2 : checkUsedRequredOpts (.vStruct (.cons fi v .nil)) "" keys = .ok () := by
      show checkRequiredFields (.cons fi v .nil) "" keys = .ok ()
      rw [checkRequiredFields]
      simp only [ne_eq, not_true_eq_false, if_false, hreq, hu,
        checkRequired_leaf v hleaf _ keys]
      simp [checkRequiredFields]
    unfold sessionAfterDecode
    rw [h1]
    dsimp only
    rw [h2]
    rfl

/-- Witness for C9: an integer field with the malformed default `abc`: with
the path used the session succeeds; with it unused the session fails with the
integer conversion error. -/
theorem malformed_default_only_when_unused_witness :
    sessionAfterDecode
        (.vStruct (.cons ⟨"Age", "age", "default=abc"⟩ (.vInt 64 5) .nil)) [] [] false
      = .error "strconv.ParseInt: parsing \"abc\": invalid syntax" ∧
    sessionAfterDecode
        (.vStruct (.cons ⟨"Age", "age", "default=abc"⟩ (.vInt 64 5) .nil)) ["age"] [] false
      = .ok (.vStruct (.cons ⟨"Age", "age", "default=abc"⟩ (.vInt 64 5) .nil)) :=
  ⟨(malformed_default_only_when_unused (.vInt 64 5) ⟨"Age", "age", "default=abc"⟩
      "abc" _ [] [] rfl rfl rfl).1 rfl,
    (malformed_default_only_when_unused (.vInt 64 5) ⟨"Age", "age", "default=abc"⟩
      "abc" _ ["age"] [] rfl rfl rfl).2 rfl rfl⟩

/-! ## Claim C10 — which tag tokens set the required flag -/

/-- The key part of one comma-separated token: the text before its first `=`
(the whole token when it has none), trimmed of surrounding spaces and tabs —
the key under which `tagPartsMakeMap` files the token. -/
def tokenKey (tok : List Char) : String :=
  trimSpaceTab (String.mk ((splitOnChar '=' tok).headD tok))

theorem splitOnChar_ne_nil (sep : Char) (l : List Char) : splitOnChar sep l ≠ [] := by
  cases l with
  | nil => simp [splitOnChar]
  | cons c cs =>
    rw [splitOnChar]
    split
    · simp
    · cases splitOnChar sep cs <;> simp

theorem goMapLookup_insert (m : List (String × String)) (k' v k : String) :
    (goMapLookup (goMapInsert m k' v) k).isSome = (k' == k || (goMapLookup m k).isSome) := by
  induction m with
  | nil => by_cases h : k' = k <;> simp [goMapInsert, goMapLookup, h]
  | cons kv rest ih =>
    obtain ⟨k0, v0⟩ := kv
    by_cases h0 : k0 = k'
    · subst h0
      by_cases hk : k0 = k <;> simp [goMapInsert, goMapLookup, hk]
    · by_cases hk : k0 = k
      · subst hk
        rw [goMapInsert, if_neg h0]
        simp [goMapLookup]
      · rw [goMapInsert, if_neg h0]
        simp [goMapLookup, hk, ih]

theorem tagPartsAdd_lookup (tm : List (String × String)) (e : List Char) (k : String) :
    (goMapLookup (tagPartsAdd tm e) k).isSome = (tokenKey e == k || (goMapLookup tm k).isSome) := by
  unfold tagPartsAdd tokenKey
  cases hs : splitOnChar '=' e with
  | nil => exact absurd hs (splitOnChar_ne_nil '=' e)
  | cons k0 rest =>
    cases rest with
    | nil => dsimp only; rw [goMapLookup_insert]; simp
    | cons v0 rest' => dsimp only; rw [goMapLookup_insert]; simp

theorem foldl_tagPartsAdd (toks : List (List Char)) (m : List (String × String)) (k : String) :
    (goMapLookup (toks.foldl tagPartsAdd m) k).isSome
      = ((goMapLookup m k).isSome || toks.any (fun tok => tokenKey tok == k)) := by
  induction toks generalizing m with
  | nil => simp
  | cons e toks' ih =>
    rw [List.foldl_cons, ih, tagPartsAdd_lookup]
    simp [Bool.or_assoc, Bool.or_comm, Bool.or_left_comm]

/-- C10: a field counts as required exactly when some comma-separated token of
its extended-options tag has key part `required` after trimming surrounding
spaces and tabs, where the key part is the text before the token's first `=`
— so `required=<anything>` sets the flag (the value after `=` is ignored), as
does a key wrapped in spaces or tabs.  Stated for every tag and every key,
with the `required` instances spelled out. -/
theorem required_flag_from_any_token :
    (∀ tag key, tagKeyCheck tag key
      = (splitOnChar ',' tag.toList).any (fun tok => tokenKey tok == key)) ∧
    tagKeyCheck "required=false" tagConfRequiredName = true ∧
    tagKeyCheck "x, required \t=1,y" tagConfRequiredName = true ∧
    tagKeyCheck "norequired" tagConfRequiredName = false := by
  refine ⟨fun tag key => ?_, by decide, by decide, by decide⟩
  rw [tagKeyCheck, tagPartsMakeMap, foldl_tagPartsAdd]
  simp [goMapLookup]

/-! ## Claim C7 — how the default literal is extracted from the tag -/

theorem splitOnChar_not_mem (sep : Char) (xs : List Char) (h : sep ∉ xs) :
    splitOnChar sep xs = [xs] := by
  induction xs with
  | nil => rfl
  | cons c cs ih =>
    simp only [List.mem_cons, not_or] at h
    rw [splitOnChar, if_neg (fun e => h.1 e.symm), ih h.2]

theorem splitOnChar_append (sep : Char) (xs ys : List Char) (h : sep ∉ xs) :
    splitOnChar sep (xs ++ sep :: ys) = xs :: splitOnChar sep ys := by
  induction xs with
  | nil => simp [splitOnChar]
  | cons c cs ih =>
    simp only [List.mem_cons, not_or] at h
    rw [List.cons_append, splitOnChar, if_neg (fun e => h.1 e.symm), ih h.2]

/-- Counterexample to C7 as stated: the extracted default string is not the
literal as written when it embeds a comma or an equals sign — `default=a,b`
yields `a` (not `a,b`) because the comma ends the token, and `default=a=b`
yields `a` (not `a=b`) because only the part up to the second `=` is kept. -/
theorem default_verbatim_counterexample :
    tagValGet "default=a,b" tagConfDefaultName = ("a", true) ∧ ("a" : String) ≠ "a,b" ∧
    tagValGet "default=a=b" tagConfDefaultName = ("a", true) ∧ ("a" : String) ≠ "a=b" :=
  ⟨rfl, by decide, rfl, by decide⟩

/-- C7 amended: the metadata extractor supplies, as the default string, the
text of the `default` token strictly between its first `=` and its second `=`
(if any), the token itself ending at the next comma: a literal free of commas
and equals signs is supplied verbatim, an embedded `=` truncates the literal
there, and an embedded comma ends the token so the remainder becomes a
separate token. -/
theorem default_literal_truncation (a b : List Char)
    (ha1 : ',' ∉ a) (ha2 : '=' ∉ a) (hb1 : ',' ∉ b) (hb2 : '=' ∉ b)
    (hbd : trimSpaceTab (String.mk b) ≠ "default") :
    tagValGet (String.mk ("default=".toList ++ a)) tagConfDefaultName = (String.mk a, true) ∧
    tagValGet (String.mk ("default=".toList ++ a ++ '=' :: b)) tagConfDefaultName
      = (String.mk a, true) ∧
    tagValGet (String.mk ("default=".toList ++ a ++ ',' :: b)) tagConfDefaultName
      = (String.mk a, true) := by
  have hd_comma : ',' ∉ "default=".toList := by decide
  have hd_eq : '=' ∉ "default".toList := by decide
  have hsplit1 : splitOnChar '=' ("default=".toList ++ a) = ["default".toList, a] := by
    show splitOnChar '=' ("default".toList ++ '=' :: a) = _
    rw [splitOnChar_append '=' _ a hd_eq, splitOnChar_not_mem '=' a ha2]
  refine ⟨?_, ?_, ?_⟩
  · unfold tagValGet tagPartsMakeMap
    rw [show (String.mk ("default=".toList ++ a)).toList = "default=".toList ++ a from rfl]
    rw [splitOnChar_not_mem ',' _ (by simp only [List.mem_append, not_or]; exact ⟨hd_comma, ha1⟩)]
    rw [List.foldl_cons, List.foldl_nil]
    unfold tagPartsAdd
    rw [hsplit1]
    simp [goMapInsert, goMapLookup, tagConfDefaultName,
      show trimSpaceTab "default" = "default" from by decide]
  · unfold tagValGet tagPartsMakeMap
    rw [show (String.mk ("default=".toList ++ a ++ '=' :: b)).toList
      = "default=".toList ++ a ++ '=' :: b from rfl]
    rw [splitOnChar_not_mem ',' _ (by
      simp only [List.mem_append, List.mem_cons, not_or]
      exact ⟨⟨hd_comma, ha1⟩, by decide, hb1⟩)]
    rw [List.foldl_cons, List.foldl_nil]
    unfold tagPartsAdd
    rw [show "default=".toList ++ a ++ '=' :: b = "default".toList ++ '=' :: (a ++ '=' :: b)
      from by simp]
    rw [splitOnChar_append '=' _ _ hd_eq, splitOnChar_append '=' a b ha2]
    simp [goMapInsert, goMapLookup, tagConfDefaultName,
      show trimSpaceTab "default" = "default" from by decide]
  · unfold tagValGet tagPartsMakeMap
    rw [show (String.mk ("default=".toList ++ a ++ ',' :: b)).toList
      = ("default=".toList ++ a) ++ ',' :: b from by simp]
    rw [splitOnChar_append ',' _ b
      (by simp only [List.mem_append, not_or]; exact ⟨hd_comma, ha1⟩)]
    rw [splitOnChar_not_mem ',' b hb1]
    rw [List.foldl_cons, List.foldl_cons, List.foldl_nil]
    rw [show tagPartsAdd [] ("default=".toList ++ a)
      = [("default", String.mk a)] from by
        unfold tagPartsAdd
        rw [hsplit1]
        simp [goMapInsert, show trimSpaceTab "default" = "default" from by decide]]
    unfold tagPartsAdd
    rw [splitOnChar_not_mem '=' b hb2]
    dsimp only
    rw [goMapInsert, if_neg (fun e => hbd e.symm)]
    simp [goMapLookup, goMapInsert, tagConfDefaultName]

/-- Witness for the amended C7: `default=Test String` supplies `Test String`
verbatim; `default=a=b` and `default=a,b` supply `a`. -/
theorem default_literal_truncation_witness :
    tagValGet (String.mk ("default=".toList ++ "Test String".toList)) tagConfDefaultName
      = (String.mk "Test String".toList, true) ∧
    tagValGet (String.mk ("default=".toList ++ "a".toList ++ '=' :: "b".toList))
        tagConfDefaultName = (String.mk "a".toList, true) ∧
    tagValGet (String.mk ("default=".toList ++ "a".toList ++ ',' :: "b".toList))
        tagConfDefaultName = (String.mk "a".toList, true) :=
  ⟨(default_literal_truncation "Test String".toList "b".toList (by decide) (by decide)
      (by decide) (by decide) (by decide)).1,
    (default_literal_truncation "a".toList "b".toList (by decide) (by decide)
      (by decide) (by decide) (by decide)).2.1,
    (default_literal_truncation "a".toList "b".toList (by decide) (by decide)
      (by decide) (by decide) (by decide)).2.2⟩

/-! ## Claim C3 — what the unanchored `ENV:(.*)` pattern recognizes -/

/-- Whether the literal `ENV:` occurs anywhere in the character list. -/
def containsENV : List Char → Bool
  | [] => false
  | c :: cs => hasPrefixENV (c :: cs) || containsENV cs

theorem envCapture_isSome (cs : List Char) : (envCapture cs).isSome = containsENV cs := by
  induction cs with
  | nil => rfl
  | cons c cs ih =>
    rw [envCapture, containsENV]
    by_cases h : hasPrefixENV (c :: cs) = true
    · simp [h]
    · have h' : hasPrefixENV (c :: cs) = false := by simpa using h
      simp [h', ih]

theorem envCapture_append (a b : List Char) (h : containsENV a = false) :
    envCapture (a ++ 'E' :: 'N' :: 'V' :: ':' :: b)
      = some (b.takeWhile (fun ch => ch ≠ '\n')) := by
  induction a with
  | nil => simp [envCapture, hasPrefixENV]
  | cons c a' ih =>
    rw [containsENV, Bool.or_eq_false_iff] at h
    rw [List.cons_append, envCapture, if_neg ?hpre]
    · exact ih h.2
    case hpre =>
      cases a' with
      | nil => simp [hasPrefixENV]
      | cons x a'' =>
        cases a'' with
        | nil => simp [hasPrefixENV]
        | cons y a''' =>
          cases a''' with
          | nil => simp [hasPrefixENV]
          | cons z rest => simpa [hasPrefixENV] using h.1

/-- Counterexample to C3 as stated: the regular expression `ENV:(.*)` is not
anchored, so a string that merely contains `ENV:` — without having it as a
prefix — already triggers environment indirection: `xENV:X` is substituted
from the environment, and with the variable unset it is rejected, where the
claim predicts the literal string `xENV:X` would be used. -/
theorem env_prefix_counterexample :
    decodeFromString (fun n => if n = "X" then "v" else "") .tString .tString (.gStr "xENV:X")
      = .ok (.gStr "v") ∧
    decodeFromString (fun _ => "") .tString .tString (.gStr "xENV:X")
      = .error "empty ENV variable 'X'" :=
  ⟨rfl, rfl⟩

/-- C3 amended: the conversion hook recognizes environment indirection exactly
when the source string contains `ENV:` anywhere; the variable name is what
follows the first occurrence up to the next newline (the remainder of the
string when it has no newline).  A source value of non-string kind passes
through; a string free of `ENV:` is coerced literally; and when indirection
triggers, an unset-or-empty variable fails with `empty ENV variable '<name>'`
— even when the destination is string-typed — while otherwise the variable's
value replaces the string before coercion. -/
theorem env_indirection_unanchored (env : String → String) (t : Ty) :
    (∀ f v, f ≠ Ty.tString → decodeFromString env f t v = .ok v) ∧
    (∀ s, containsENV s.toList = false →
      decodeFromString env .tString t (.gStr s) = convFromString s t) ∧
    (∀ a b, containsENV a = false →
      decodeFromString env .tString t (.gStr (String.mk (a ++ 'E' :: 'N' :: 'V' :: ':' :: b)))
        = (if env (String.mk (b.takeWhile (fun ch => ch ≠ '\n'))) = "" then
            .error ("empty ENV variable '" ++ String.mk (b.takeWhile (fun ch => ch ≠ '\n')) ++ "'")
          else convFromString (env (String.mk (b.takeWhile (fun ch => ch ≠ '\n')))) t)) := by
  refine ⟨?_, ?_, ?_⟩
  · intro f v hf
    unfold decodeFromString
    rw [if_pos hf]
  · intro s hs
    unfold decodeFromString
    rw [if_neg (by simp)]
    have hnone : envCapture s.toList = none := by
      cases henv : envCapture s.toList with
      | none => rfl
      | some nameCs =>
        have := envCapture_isSome s.toList
        rw [henv, hs] at this
        exact absurd this (by simp)
    dsimp only
    rw [hnone]
  · intro a b hc
    unfold decodeFromString
    rw [if_neg (by simp)]
    dsimp only
    rw [show (String.mk (a ++ 'E' :: 'N' :: 'V' :: ':' :: b)).toList
      = a ++ 'E' :: 'N' :: 'V' :: ':' :: b from rfl]
    rw [envCapture_append a b hc]

/-- Witness for the amended C3: `xENV:X` (prefix `x`, so `ENV:` occurs but not
at the start) resolves the variable `X` and substitutes its value `v` before
coercion to the string destination. -/
theorem env_indirection_unanchored_witness :
    decodeFromString (fun n => if n = "X" then "v" else "") .tString .tString
      (.gStr (String.mk (['x'] ++ 'E' :: 'N' :: 'V' :: ':' :: "X".toList))) = .ok (.gStr "v") := by
  rw [(env_indirection_unanchored (fun n => if n = "X" then "v" else "") .tString).2.2
    ['x'] "X".toList rfl]
  rfl

end NxsConf
